import Mathlib

/-!
Verification model of the per-file read engine in `src/http.rs` of gdrivefs:
the chunk-aligned range reader, the buffer-pool cache with eviction and reuse,
the read-ahead scheduler, and the actor loop that serializes all state for one
open file, together with the reference-counted `FileReadHandle` lifecycle.

Machine integers (`u64`/`u32`/`usize`) are modelled as `Nat`; wrap-around and
underflow are made explicit exactly where the source can hit them (the `u32`
reference count, the `usize` subtraction `chunk_data.len() - 1`).  Branches on
which the Rust program panics (a failed `unwrap()`, an arithmetic underflow, an
out-of-range slice index) are modelled by returning `none`.
-/

namespace Gdrivefs

/-- A `Vec<u8>` buffer: the filled bytes, each byte a `Nat`. -/
abbrev Buffer := List Nat

/-- Modelled from the spec: the `poolcache::PoolCache` crate is a dependency
whose source is not part of this repository; §4.2 of the spec gives its
contract.  `cap` is the hard capacity limit of the keyed set (the argument of
`PoolCache::new`), `keyed` is the keyed entries ordered least-recently-used
first, `free` is the free list of reusable buffers. -/
structure PoolCache where
  cap : Nat
  keyed : List (Nat × Buffer)
  free : List Buffer
deriving DecidableEq, Repr

/-- Constructor `PoolCache::new(cap)`: empty keyed set and free list. -/
def PoolCache.new (cap : Nat) : PoolCache := ⟨cap, [], []⟩

/-- Modelled from the spec (§4.2 `contains(key)`): key lookup, no recency
update. -/
def PoolCache.containsKey (c : PoolCache) (k : Nat) : Bool :=
  c.keyed.any (fun e => e.1 == k)

/-- Modelled from the spec (§4.2 `returnFreeBuffer`): hand a buffer back to
the free list without keying it. -/
def PoolCache.put (c : PoolCache) (b : Buffer) : PoolCache :=
  { c with free := b :: c.free }

/-- Modelled from the spec (§4.2 `takeFreeBuffer`): remove one buffer from the
free list; `none` only if the free list is exhausted. -/
def PoolCache.take (c : PoolCache) : Option (Buffer × PoolCache) :=
  match c.free with
  | [] => none
  | b :: rest => some (b, { c with free := rest })

/-- Modelled from the spec (§4.2 `insert`): insert a filled buffer under `key`
as most recently used; if the keyed set would exceed the hard capacity limit,
first evict the least-recently-used keyed entry, moving its buffer to the free
list. -/
def PoolCache.insert (c : PoolCache) (k : Nat) (b : Buffer) : PoolCache :=
  if c.cap ≤ c.keyed.length then
    match c.keyed with
    | [] => { c with keyed := [(k, b)] }
    | lru :: rest => { c with keyed := rest ++ [(k, b)], free := lru.2 :: c.free }
  else
    { c with keyed := c.keyed ++ [(k, b)] }

/-- Remove the first entry with key `k` from an association list, returning the
entry and the remainder in order. -/
def removeKey (k : Nat) : List (Nat × Buffer) → Option ((Nat × Buffer) × List (Nat × Buffer))
  | [] => none
  | e :: rest =>
    if e.1 = k then some (e, rest)
    else
      match removeKey k rest with
      | none => none
      | some (f, rest') => some (f, e :: rest')

/-- Modelled from the spec (§4.2 `get` and the glossary's least-recently-used
keyed cache): borrow the buffer under `k` and mark the entry most recently
used; `none` if the key is absent. -/
def PoolCache.getTouch (c : PoolCache) (k : Nat) : Option (Buffer × PoolCache) :=
  match removeKey k c.keyed with
  | none => none
  | some (e, rest) => some (e.2, { c with keyed := rest ++ [e] })

/-- Options structure `FileReadOptions` from `src/http.rs`. -/
structure FileReadOptions where
  readaheadQueueSize : Nat
  fileReadCacheBlocks : Nat
  readBlockMultiplier : Nat
deriving DecidableEq, Repr

/-- The per-engine constants captured by the thread closure in `spawn`:
`chunk_size = BLOCK_SIZE * read_block_multiplier` (line 169) and the readahead
queue depth. -/
structure EngineConfig where
  chunkSize : Nat
  readaheadQueueSize : Nat
deriving DecidableEq, Repr

/-- Computation of `chunk_size` from line 169, with `constants::BLOCK_SIZE` (whose
definition is outside `src/`) as a parameter. -/
def EngineConfig.ofOptions (blockSize : Nat) (o : FileReadOptions) : EngineConfig :=
  ⟨blockSize * o.readBlockMultiplier, o.readaheadQueueSize⟩

/-- Request structure `FileReadRequest`: `hasReply` models `reply.is_some()`; a read-ahead
request is one with no reply sink. -/
structure FileReadRequest where
  offset : Nat
  size : Nat
  hasReply : Bool
deriving DecidableEq, Repr

/-- Predicate `FileReadRequest::is_readahead`. -/
def FileReadRequest.isReadahead (r : FileReadRequest) : Bool := !r.hasReply

/-- What a reply sink receives: `reply.data(slice)` or `reply.error(errno)`. -/
inductive ReadReply where
  | data : Buffer → ReadReply
  | error : Nat → ReadReply
deriving DecidableEq, Repr

/-- Errno `libc::ENOSYS` (operation not supported). -/
def enosysErrno : Nat := 38

/-- Errno `libc::EIO` (I/O error). -/
def eioErrno : Nat := 5

/-- Method `FileReadRequest::error`: resolves the reply sink with an errno if one is
present, does nothing for a read-ahead request. -/
def replyError (req : FileReadRequest) (e : Nat) : Option ReadReply :=
  if req.hasReply then some (ReadReply.error e) else none

/-- Method `FileReadRequest::data`: resolves the reply sink with bytes if one is
present, does nothing for a read-ahead request. -/
def replyData (req : FileReadRequest) (b : Buffer) : Option ReadReply :=
  if req.hasReply then some (ReadReply.data b) else none

/-- The engine state owned by the spawned thread: the buffer-pool cache and the
read-ahead queue (`VecDeque<u64>`, front first). -/
structure EngineState where
  cache : PoolCache
  readahead : List Nat
deriving DecidableEq, Repr

/-- The literal `10` passed to `PoolCache::new(10)` on line 172. -/
def poolEvictCap : Nat := 10

/-- The seeding loop of lines 173-175: `cache_size` iterations of
`buf_cache.put(Vec::with_capacity(..))` (an empty buffer). -/
def seedFree : Nat → PoolCache → PoolCache
  | 0, c => c
  | n + 1, c => seedFree n (c.put [])

/-- Engine state right after the initialization in `spawn` (lines 164-175):
empty readahead queue, pool of hard capacity 10 seeded with
`fileReadCacheBlocks` empty buffers. -/
def initState (cacheSize : Nat) : EngineState :=
  ⟨seedFree cacheSize (PoolCache.new poolEvictCap), []⟩

/-- One observable result of a loop iteration: the successor state, what (if
anything) was delivered to the request's reply sink, and the fetches issued to
the range reader (start, size). -/
structure StepOut where
  state : EngineState
  reply : Option ReadReply
  fetches : List (Nat × Nat)
deriving DecidableEq, Repr

/-- Line 254: `end = cmp::min(start + size, chunk_data.len() - 1)` followed by
the slice `&chunk_data[start..end]`.  The `usize` subtraction underflows when
the buffer is empty, and the slice panics when `start > end`; both are `none`.
Note the source uses `len - 1` here, not `len`. -/
def sliceForReply (chunkData : Buffer) (start size : Nat) : Option Buffer :=
  if chunkData.length = 0 then none
  else
    let stop := min (start + size) (chunkData.length - 1)
    if start ≤ stop then some ((chunkData.drop start).take (stop - start))
    else none

/-- Lines 260-266: walk `readahead_queue_size` offsets forward from
`startOffset` in chunk-size strides, appending each offset not already cached
to the back of the queue. -/
def scheduleAux (cache : PoolCache) (chunkSize : Nat) : Nat → Nat → List Nat → List Nat
  | 0, _, q => q
  | n + 1, off, q =>
    scheduleAux cache chunkSize n (off + chunkSize)
      (if cache.containsKey off then q else q ++ [off])

/-- The read-ahead top-up after a served user request (lines 259-266), starting
at `chunk_offset + chunk_size`. -/
def scheduleReadahead (cfg : EngineConfig) (cache : PoolCache) (queue : List Nat)
    (startOffset : Nat) : List Nat :=
  scheduleAux cache cfg.chunkSize cfg.readaheadQueueSize startOffset queue

/-- Lines 245-266: the tail of a loop iteration once the chunk is (now) cached.
A read-ahead request is done; a user request is served the slice of line
253-256 and then tops up the read-ahead queue. -/
def serveAndSchedule (cfg : EngineConfig) (s : EngineState) (fetches : List (Nat × Nat))
    (req : FileReadRequest) (chunkOffset : Nat) : Option StepOut :=
  if req.isReadahead then some ⟨s, none, fetches⟩
  else
    match s.cache.getTouch chunkOffset with
    | none => none
    | some (chunkData, cache2) =>
      match sliceForReply chunkData (req.offset - chunkOffset) req.size with
      | none => none
      | some slice =>
        some ⟨⟨cache2, scheduleReadahead cfg cache2 s.readahead (chunkOffset + cfg.chunkSize)⟩,
              replyData req slice, fetches⟩

/-- One iteration of the engine loop on a chosen request (lines 213-266).
`fetch start size` is the range-reader oracle (`reader.read_bytes`); `none`
models a fetch error and `some bytes` the bytes appended to the cleared buffer.
The whole step returns `none` exactly when the Rust thread panics (the
`take().unwrap()` of line 231 or the slice of lines 254-255). -/
def step (cfg : EngineConfig) (fetch : Nat → Nat → Option Buffer)
    (s : EngineState) (req : FileReadRequest) : Option StepOut :=
  let chunkOffset := req.offset / cfg.chunkSize * cfg.chunkSize
  if req.offset + req.size > chunkOffset + cfg.chunkSize then
    some ⟨s, replyError req enosysErrno, []⟩
  else if s.cache.containsKey chunkOffset then
    serveAndSchedule cfg s [] req chunkOffset
  else
    let q1 := if req.isReadahead then s.readahead else []
    match s.cache.take with
    | none => none
    | some (_buf, cache1) =>
      match fetch chunkOffset cfg.chunkSize with
      | some bytes =>
        serveAndSchedule cfg ⟨cache1.insert chunkOffset bytes, q1⟩
          [(chunkOffset, cfg.chunkSize)] req chunkOffset
      | none =>
        some ⟨⟨cache1.put [], q1⟩, replyError req eioErrno, [(chunkOffset, cfg.chunkSize)]⟩

/-- Request selection at the top of the loop (lines 180-211): a waiting channel
request wins (`try_recv`); otherwise the front of the read-ahead queue is
turned into a full-chunk request with no reply sink; otherwise the thread
blocks (`none`). -/
def selectNext (chunkSize : Nat) (chan : List FileReadRequest) (ra : List Nat) :
    Option (FileReadRequest × List FileReadRequest × List Nat) :=
  match chan with
  | req :: rest => some (req, rest, ra)
  | [] =>
    match ra with
    | off :: ra' => some (⟨off, chunkSize, false⟩, [], ra')
    | [] => none

/-- Run the engine loop for at most `fuel` iterations on a fixed backlog of
channel requests, returning the requests handled in order and the final state.
`none` propagates a panic; a blocked loop (nothing to do) stops and returns. -/
def runTrace (cfg : EngineConfig) (fetch : Nat → Nat → Option Buffer) :
    Nat → List FileReadRequest → EngineState → Option (List FileReadRequest × EngineState)
  | 0, _, s => some ([], s)
  | fuel + 1, chan, s =>
    match selectNext cfg.chunkSize chan s.readahead with
    | none => some ([], s)
    | some (req, chan', ra') =>
      match step cfg fetch ⟨s.cache, ra'⟩ req with
      | none => none
      | some out => (runTrace cfg fetch fuel chan' out.state).map (fun p => (req :: p.1, p.2))

/-- Handle structure `FileReadHandle`: the `u32` reference count (`open_count`).  The channel
sender is not carried: the engine's receiver stays open exactly while the
handle object is alive. -/
structure FileReadHandle where
  openCount : Nat
deriving DecidableEq, Repr

/-- Modulus `2^32` of the `u32` reference count. -/
def u32Mod : Nat := 2 ^ 32

/-- Method `FileReadHandle::incref`: `open_count += 1` on a `u32`; the wrap-around
of the counter at `2^32` is written out arithmetically. -/
def FileReadHandle.incref (h : FileReadHandle) : FileReadHandle :=
  ⟨(h.openCount + 1) % u32Mod⟩

/-- Method `FileReadHandle::decref`: `open_count -= 1` on a `u32`, then `None` at zero
else `Some`.  At `open_count == 0` the subtraction underflows below zero, which
is an arithmetic program error in Rust (a panic under overflow checks), modelled
as the outer `none`; a graceful result is `some r`. -/
def FileReadHandle.decref (h : FileReadHandle) : Option (Option FileReadHandle) :=
  if h.openCount = 0 then none
  else if h.openCount - 1 = 0 then some none
  else some (some ⟨h.openCount - 1⟩)

/-- The handle returned by `spawn` (lines 271-274): reference count zero. -/
def spawnHandle : FileReadHandle := ⟨0⟩

/-- Iterate `n` successive `incref` calls. -/
def increfN : Nat → FileReadHandle → FileReadHandle
  | 0, h => h
  | n + 1, h => increfN n h.incref

/-- Iterate `n` successive `decref` calls.  The outer `none` means some call panicked by
underflow, or a call was attempted on a handle already consumed by a `None`
result; `some none` means the final call gracefully returned `None`; `some
(some h)` is the surviving handle. -/
def applyDecrefs : Nat → FileReadHandle → Option (Option FileReadHandle)
  | 0, h => some (some h)
  | n + 1, h =>
    match h.decref with
    | none => none
    | some none => if n = 0 then some none else none
    | some (some h') => applyDecrefs n h'

/-- Result of `FileReadHandle::do_read`. -/
inductive SubmitResult where
  | accepted
  | submissionFailed
deriving DecidableEq, Repr

/-- Method `do_read` (lines 119-128): the send succeeds while the engine thread still
holds the open receiver, which it does exactly while the handle (the sole
sender) is alive; once the final `decref` returned `None` and the handle was
dropped, the channel is closed and the send errs (`SubmissionError`). -/
def requestRead (h : Option FileReadHandle) (offset : Nat) (size : Nat) : SubmitResult :=
  match h, offset, size with
  | some _, _, _ => SubmitResult.accepted
  | none, _, _ => SubmitResult.submissionFailed

/-- The slice the spec's words call for in step 7 of §4.3:
`[offset - chunkStart, min(offset - chunkStart + size, bufferLength))` of the
cached buffer — stated from the spec, to be compared with `sliceForReply`. -/
def specClaimedSlice (chunkData : Buffer) (start size : Nat) : Buffer :=
  (chunkData.drop start).take (min (start + size) chunkData.length - start)

/-- Claim C1: the code does not deliver the claimed slice.  With chunk 0 cached
as the four filled bytes `[10, 11, 12, 13]` (a short final chunk), a user read
of offset 0 and size 4 — ending exactly at the chunk's filled length — is
answered with only `[10, 11, 12]`, because line 254 bounds the slice by
`chunk_data.len() - 1` instead of the filled length; the claimed slice is all
four bytes. -/
theorem c1_last_byte_lost :
    (step ⟨4096, 0⟩ (fun _ _ => none)
        ⟨⟨poolEvictCap, [(0, [10, 11, 12, 13])], []⟩, []⟩ ⟨0, 4, true⟩).map (fun o => o.reply)
      = some (some (ReadReply.data [10, 11, 12]))
    ∧ specClaimedSlice [10, 11, 12, 13] 0 4 = [10, 11, 12, 13]
    ∧ ([10, 11, 12] : Buffer) ≠ [10, 11, 12, 13] := by
  refine ⟨by decide, by decide, by decide⟩

/-- Claim C4: a request whose byte range crosses a chunk boundary is answered
with `ENOSYS`, the fetcher is never invoked, the cache and the read-ahead queue
are left unchanged, and the loop continues. -/
theorem c4_cross_chunk_rejected (cfg : EngineConfig) (fetch : Nat → Nat → Option Buffer)
    (s : EngineState) (req : FileReadRequest)
    (huser : req.isReadahead = false)
    (hspan : req.offset + req.size > req.offset / cfg.chunkSize * cfg.chunkSize + cfg.chunkSize) :
    step cfg fetch s req = some ⟨s, some (ReadReply.error enosysErrno), []⟩ := by
  have hreply : req.hasReply = true := by
    simpa [FileReadRequest.isReadahead] using huser
  simp [step, hspan, replyError, hreply]

/-- Claim C4 witness: the spec's own scenario — offset 100, size 5000, chunk
size 4096. -/
theorem c4_cross_chunk_rejected_witness :
    step ⟨4096, 2⟩ (fun _ _ => none) (initState 2) ⟨100, 5000, true⟩
      = some ⟨initState 2, some (ReadReply.error enosysErrno), []⟩ :=
  c4_cross_chunk_rejected ⟨4096, 2⟩ (fun _ _ => none) (initState 2) ⟨100, 5000, true⟩
    (by decide) (by decide)

/-- Claim C9: the reference count returned by `spawn` is zero, and `decref` on
that handle does not return a graceful `None`: the `u32` subtraction
`open_count -= 1` underflows (the modelled panic, the outer `none`), so a
nonzero count is an unguarded precondition of `decref`. -/
theorem c9_decref_underflow :
    spawnHandle.openCount = 0 ∧ spawnHandle.decref = none := by
  refine ⟨rfl, by decide⟩

/-- Claim C10: with `fileReadCacheBlocks = 0` no buffer is ever obtainable, and
the first in-chunk request — a cache miss — makes `buf_cache.take().unwrap()`
panic (the `none` outcome) instead of failing the request with an error. -/
theorem c10_take_unwrap_panics (cfg : EngineConfig) (fetch : Nat → Nat → Option Buffer)
    (req : FileReadRequest)
    (hspan : ¬ req.offset + req.size > req.offset / cfg.chunkSize * cfg.chunkSize + cfg.chunkSize) :
    step cfg fetch (initState 0) req = none := by
  simp [step, hspan, initState, seedFree, PoolCache.new, PoolCache.containsKey, PoolCache.take]

/-- Claim C10 witness: a user read of the first 100 bytes with chunk size 4096
and zero configured cache blocks panics the engine thread. -/
theorem c10_take_unwrap_panics_witness :
    step ⟨4096, 2⟩ (fun _ _ => none) (initState 0) ⟨0, 100, true⟩ = none :=
  c10_take_unwrap_panics ⟨4096, 2⟩ (fun _ _ => none) ⟨0, 100, true⟩ (by decide)

/-- Claim C5: when the fetch for a miss fails, the step returns the taken
buffer (cleared) to the free list, answers a user request with `EIO` (a
read-ahead request receives nothing), leaves the keyed cache untouched, skips
the read-ahead top-up for this iteration, and the loop continues.  The cache
state is the spec-modelled pool of §4.2, whose `takeFreeBuffer` touches only
the free list. -/
theorem c5_fetch_failure_contained (cfg : EngineConfig) (fetch : Nat → Nat → Option Buffer)
    (s : EngineState) (req : FileReadRequest) (b : Buffer) (fr : List Buffer)
    (hspan : ¬ req.offset + req.size > req.offset / cfg.chunkSize * cfg.chunkSize + cfg.chunkSize)
    (hmiss : s.cache.containsKey (req.offset / cfg.chunkSize * cfg.chunkSize) = false)
    (hfree : s.cache.free = b :: fr)
    (hfail : fetch (req.offset / cfg.chunkSize * cfg.chunkSize) cfg.chunkSize = none) :
    step cfg fetch s req
      = some ⟨⟨⟨s.cache.cap, s.cache.keyed, [] :: fr⟩,
               if req.isReadahead then s.readahead else []⟩,
              replyError req eioErrno,
              [(req.offset / cfg.chunkSize * cfg.chunkSize, cfg.chunkSize)]⟩ := by
  simp [step, hspan, hmiss, PoolCache.take, hfree, hfail, PoolCache.put]

/-- Claim C5 witness: chunk size 8, two seeded buffers, a failing fetch for a
user read of offset 0 size 4. -/
theorem c5_fetch_failure_contained_witness :
    step ⟨8, 1⟩ (fun _ _ => none) (initState 2) ⟨0, 4, true⟩
      = some ⟨⟨⟨poolEvictCap, [], [[], []]⟩, []⟩,
              replyError ⟨0, 4, true⟩ eioErrno, [(0, 8)]⟩ :=
  c5_fetch_failure_contained ⟨8, 1⟩ (fun _ _ => none) (initState 2) ⟨0, 4, true⟩ [] [[]]
    (by decide) (by decide) (by decide) rfl

/-- Claim C6: on a cache miss the read-ahead queue is cleared before anything
else happens for a user request — the whole iteration behaves as if the queue
had been empty — while a miss on a read-ahead request leaves the queue exactly
as it was. -/
theorem c6_user_miss_clears_queue (cfg : EngineConfig) (fetch : Nat → Nat → Option Buffer)
    (s : EngineState) (req : FileReadRequest)
    (hspan : ¬ req.offset + req.size > req.offset / cfg.chunkSize * cfg.chunkSize + cfg.chunkSize)
    (hmiss : s.cache.containsKey (req.offset / cfg.chunkSize * cfg.chunkSize) = false) :
    (req.isReadahead = false →
        step cfg fetch s req = step cfg fetch ⟨s.cache, []⟩ req) ∧
    (req.isReadahead = true → ∀ out, step cfg fetch s req = some out →
        out.state.readahead = s.readahead) := by
  constructor
  · intro huser
    simp [step, hspan, hmiss, huser]
  · intro hra out hout
    simp only [step, hspan, if_false, hmiss, hra, if_true, Bool.false_eq_true,
      reduceIte] at hout
    rcases htake : s.cache.take with _ | ⟨b, cache1⟩ <;> rw [htake] at hout
    · exact absurd hout (by simp)
    · rcases hfetch : fetch (req.offset / cfg.chunkSize * cfg.chunkSize) cfg.chunkSize
        with _ | bytes <;> rw [hfetch] at hout
      · cases hout
        rfl
      · simp only [serveAndSchedule, hra, if_true] at hout
        cases hout
        rfl

/-- Claim C6 witness: a user miss with a stale queued offset `8` behaves as the
same step from an emptied queue. -/
theorem c6_user_miss_clears_queue_witness :
    step ⟨8, 1⟩ (fun _ _ => some [1, 2, 3]) ⟨(initState 2).cache, [8]⟩ ⟨0, 1, true⟩
      = step ⟨8, 1⟩ (fun _ _ => some [1, 2, 3]) ⟨(initState 2).cache, []⟩ ⟨0, 1, true⟩ :=
  (c6_user_miss_clears_queue ⟨8, 1⟩ (fun _ _ => some [1, 2, 3])
    ⟨(initState 2).cache, [8]⟩ ⟨0, 1, true⟩ (by decide) (by decide)).1 (by decide)

/-- The pool invariant maintained by the engine loop: the hard capacity is the
literal 10 of line 172, the keyed set never exceeds it, and keyed entries plus
free buffers together account for exactly the `fileReadCacheBlocks` seeded
buffers (buffers are recycled, never allocated or dropped). -/
def cacheInv (cs : Nat) (c : PoolCache) : Prop :=
  c.cap = poolEvictCap ∧ c.keyed.length ≤ c.cap ∧ c.keyed.length + c.free.length = cs

lemma removeKey_length (k : Nat) :
    ∀ (l : List (Nat × Buffer)) (e : Nat × Buffer) (l' : List (Nat × Buffer)),
      removeKey k l = some (e, l') → l'.length + 1 = l.length := by
  intro l
  induction l with
  | nil => intro e l' h; simp [removeKey] at h
  | cons x xs ih =>
    intro e l' h
    simp only [removeKey] at h
    split at h
    · cases h
      simp
    · split at h
      · exact absurd h (by simp)
      · rename_i f rest' hr
        cases h
        have := ih _ _ hr
        simp only [List.length_cons]
        omega

lemma getTouch_inv (c : PoolCache) (k : Nat) (b : Buffer) (c' : PoolCache)
    (h : c.getTouch k = some (b, c')) :
    c'.cap = c.cap ∧ c'.keyed.length = c.keyed.length ∧ c'.free = c.free := by
  unfold PoolCache.getTouch at h
  split at h
  · exact absurd h (by simp)
  · rename_i e rest hr
    cases h
    have := removeKey_length k c.keyed e rest hr
    refine ⟨rfl, ?_, rfl⟩
    simp only [List.length_append, List.length_cons, List.length_nil]
    omega

lemma take_eq (c : PoolCache) (b : Buffer) (c' : PoolCache) (h : c.take = some (b, c')) :
    c.free = b :: c'.free ∧ c'.cap = c.cap ∧ c'.keyed = c.keyed := by
  unfold PoolCache.take at h
  split at h
  · exact absurd h (by simp)
  · rename_i b2 rest hfree
    cases h
    exact ⟨hfree, rfl, rfl⟩

lemma insert_inv (c : PoolCache) (k : Nat) (b : Buffer) (hlen : c.keyed.length ≤ c.cap)
    (hcap : 0 < c.cap) :
    (c.insert k b).cap = c.cap ∧ (c.insert k b).keyed.length ≤ c.cap ∧
      (c.insert k b).keyed.length + (c.insert k b).free.length
        = c.keyed.length + 1 + c.free.length := by
  unfold PoolCache.insert
  split
  · rcases hk : c.keyed with _ | ⟨lru, rest⟩
    · simp [hk]
      omega
    · simp [hk]
      rw [hk] at hlen
      simp at hlen
      omega
  · simp
    omega

lemma serveAndSchedule_inv (cfg : EngineConfig) (s : EngineState)
    (fetches : List (Nat × Nat)) (req : FileReadRequest) (chunkOffset : Nat)
    (out : StepOut) (cs : Nat)
    (h : serveAndSchedule cfg s fetches req chunkOffset = some out)
    (hinv : cacheInv cs s.cache) : cacheInv cs out.state.cache := by
  unfold serveAndSchedule at h
  split at h
  · cases h
    exact hinv
  · split at h
    · exact absurd h (by simp)
    · rename_i chunkData cache2 hg
      split at h
      · exact absurd h (by simp)
      · cases h
        obtain ⟨g1, g2, g3⟩ := getTouch_inv s.cache chunkOffset chunkData cache2 hg
        obtain ⟨i1, i2, i3⟩ := hinv
        show cacheInv cs cache2
        refine ⟨g1.trans i1, by omega, ?_⟩
        rw [g2, g3]
        exact i3

lemma step_inv (cfg : EngineConfig) (fetch : Nat → Nat → Option Buffer)
    (s : EngineState) (req : FileReadRequest) (out : StepOut) (cs : Nat)
    (h : step cfg fetch s req = some out) (hinv : cacheInv cs s.cache) :
    cacheInv cs out.state.cache := by
  simp only [step] at h
  split at h
  · cases h
    exact hinv
  · split at h
    · exact serveAndSchedule_inv _ _ _ _ _ _ _ h hinv
    · split at h
      · exact absurd h (by simp)
      · rename_i _buf cache1 htake
        obtain ⟨t1, t2, t3⟩ := take_eq s.cache _buf cache1 htake
        obtain ⟨i1, i2, i3⟩ := hinv
        have hflen : s.cache.free.length = cache1.free.length + 1 := by
          rw [t1]
          simp
        have hklen : cache1.keyed.length = s.cache.keyed.length := by rw [t3]
        split at h
        · rename_i bytes hfetch
          have hcap : 0 < cache1.cap := by
            rw [t2, i1]
            decide
          have hlen1 : cache1.keyed.length ≤ cache1.cap := by
            rw [t3, t2]
            exact i2
          obtain ⟨j1, j2, j3⟩ :=
            insert_inv cache1 (req.offset / cfg.chunkSize * cfg.chunkSize) bytes hlen1 hcap
          have hinv2 : cacheInv cs
              (cache1.insert (req.offset / cfg.chunkSize * cfg.chunkSize) bytes) := by
            refine ⟨by rw [j1, t2]; exact i1, by rw [j1]; exact j2, by omega⟩
          exact serveAndSchedule_inv _ _ _ _ _ _ _ h hinv2
        · cases h
          show cacheInv cs (cache1.put [])
          refine ⟨?_, ?_, ?_⟩ <;> simp only [PoolCache.put]
          · exact t2.trans i1
          · rw [hklen, t2]
            exact i2
          · simp only [List.length_cons]
            omega

lemma runTrace_inv (cfg : EngineConfig) (fetch : Nat → Nat → Option Buffer) (cs : Nat) :
    ∀ (fuel : Nat) (chan : List FileReadRequest) (s : EngineState)
      (tr : List FileReadRequest) (s' : EngineState),
      runTrace cfg fetch fuel chan s = some (tr, s') → cacheInv cs s.cache →
      cacheInv cs s'.cache := by
  intro fuel
  induction fuel with
  | zero =>
    intro chan s tr s' h hinv
    simp only [runTrace] at h
    cases h
    exact hinv
  | succ m ih =>
    intro chan s tr s' h hinv
    simp only [runTrace] at h
    split at h
    · cases h
      exact hinv
    · rename_i req chan' ra' hsel
      split at h
      · exact absurd h (by simp)
      · rename_i out hstep
        rcases hrun : runTrace cfg fetch m chan' out.state with _ | p
        · rw [hrun] at h
          exact absurd h (by simp)
        · rw [hrun, Option.map_some'] at h
          cases h
          exact ih chan' out.state p.1 p.2 hrun (step_inv _ _ _ _ _ _ hstep hinv)

lemma seedFree_spec : ∀ (n : Nat) (c : PoolCache),
    (seedFree n c).cap = c.cap ∧ (seedFree n c).keyed = c.keyed ∧
      (seedFree n c).free.length = n + c.free.length := by
  intro n
  induction n with
  | zero => intro c; simp [seedFree]
  | succ m ih =>
    intro c
    obtain ⟨h1, h2, h3⟩ := ih (c.put [])
    simp only [seedFree]
    refine ⟨h1, h2, ?_⟩
    rw [h3]
    simp [PoolCache.put]
    omega

/-- Claim C2 counterexample: configure `fileReadCacheBlocks = 12` (and no
read-ahead) and issue eleven user reads on eleven distinct chunks.  The claim
allows no eviction before an insert would exceed twelve keyed entries, so chunk
0 should still be cached; but the pool's hard-coded capacity is 10, the
eleventh insert evicts chunk 0, and the keyed set ends at ten entries. -/
theorem c2_counterexample :
    (runTrace ⟨4096, 0⟩ (fun _ _ => some [0, 1, 2]) 11
        ((List.range 11).map (fun k => (⟨k * 4096, 1, true⟩ : FileReadRequest)))
        (initState 12)).map (fun p => (p.2.cache.containsKey 0, p.2.cache.keyed.length))
      = some (false, 10)
    ∧ (10 : Nat) < 12 := by
  exact ⟨by decide, by decide⟩

/-- Claim C2 as amended: the engine's keyed cache never holds more than
`min 10 fileReadCacheBlocks` entries — the eviction bound is the pool's
hard-coded capacity 10 of line 172, not `fileReadCacheBlocks` — and keyed
entries plus free buffers always account for exactly the `fileReadCacheBlocks`
seeded buffers (buffers are recycled, never allocated or dropped).  An insert
at or above the hard capacity evicts exactly the least-recently-used keyed
entry, moving its buffer to the free list, while an insert below it evicts
nothing. -/
theorem c2_amended_capacity :
    (∀ (cfg : EngineConfig) (fetch : Nat → Nat → Option Buffer) (fuel : Nat)
        (chan : List FileReadRequest) (cs : Nat) (tr : List FileReadRequest)
        (s' : EngineState),
        runTrace cfg fetch fuel chan (initState cs) = some (tr, s') →
        s'.cache.keyed.length ≤ min poolEvictCap cs
        ∧ s'.cache.keyed.length + s'.cache.free.length = cs) ∧
    (∀ (c : PoolCache) (k : Nat) (b : Buffer) (lru : Nat × Buffer)
        (rest : List (Nat × Buffer)),
        c.keyed = lru :: rest → c.cap ≤ c.keyed.length →
        c.insert k b = ⟨c.cap, rest ++ [(k, b)], lru.2 :: c.free⟩) ∧
    (∀ (c : PoolCache) (k : Nat) (b : Buffer), c.keyed.length < c.cap →
        c.insert k b = ⟨c.cap, c.keyed ++ [(k, b)], c.free⟩) := by
  refine ⟨?_, ?_, ?_⟩
  · intro cfg fetch fuel chan cs tr s' h
    obtain ⟨h1, h2, h3⟩ := seedFree_spec cs (PoolCache.new poolEvictCap)
    have hinit : cacheInv cs (initState cs).cache := by
      have e1 : (initState cs).cache = seedFree cs (PoolCache.new poolEvictCap) := rfl
      refine ⟨?_, ?_, ?_⟩ <;> rw [e1]
      · rw [h1]
        rfl
      · rw [h2, h1]
        decide
      · rw [h2, h3]
        have e2 : (PoolCache.new poolEvictCap).keyed.length = 0 := rfl
        have e3 : (PoolCache.new poolEvictCap).free.length = 0 := rfl
        omega
    obtain ⟨i1, i2, i3⟩ := runTrace_inv cfg fetch cs fuel chan (initState cs) tr s' h hinit
    exact ⟨by omega, i3⟩
  · intro c k b lru rest hk hcap
    unfold PoolCache.insert
    rw [if_pos hcap, hk]
  · intro c k b hlt
    unfold PoolCache.insert
    rw [if_neg (by omega : ¬ c.cap ≤ c.keyed.length)]

/-- Claim C2 amended witness: a zero-fuel run keeps the bound and conserves the
five seeded buffers, and a concrete insert below the hard capacity evicts
nothing. -/
theorem c2_amended_capacity_witness :
    ((initState 5).cache.keyed.length ≤ min poolEvictCap 5
      ∧ (initState 5).cache.keyed.length + (initState 5).cache.free.length = 5)
    ∧ (initState 3).cache.insert 0 [7]
        = ⟨(initState 3).cache.cap, (initState 3).cache.keyed ++ [(0, [7])],
           (initState 3).cache.free⟩ :=
  ⟨c2_amended_capacity.1 ⟨4096, 2⟩ (fun _ _ => none) 0 [] 5 [] (initState 5) rfl,
   c2_amended_capacity.2.2 (initState 3).cache 0 [7] (by decide)⟩

lemma scheduleAux_append (cache : PoolCache) (S : Nat) :
    ∀ (n off : Nat) (q : List Nat),
      scheduleAux cache S n off q = q ++ scheduleAux cache S n off [] := by
  intro n
  induction n with
  | zero => intro off q; simp [scheduleAux]
  | succ m ih =>
    intro off q
    simp only [scheduleAux]
    cases hcc : cache.containsKey off <;> simp only [hcc, Bool.false_eq_true, if_false, if_true]
    · rw [ih (off + S) (q ++ [off]), ih (off + S) ([] ++ [off])]
      simp
    · exact ih (off + S) q

lemma scheduleAux_length (cache : PoolCache) (S : Nat) :
    ∀ (n off : Nat), (scheduleAux cache S n off []).length ≤ n := by
  intro n
  induction n with
  | zero => intro off; simp [scheduleAux]
  | succ m ih =>
    intro off
    simp only [scheduleAux]
    cases hcc : cache.containsKey off <;> simp only [hcc, Bool.false_eq_true, if_false, if_true]
    · rw [scheduleAux_append cache S m (off + S) ([] ++ [off])]
      have := ih (off + S)
      simp
      omega
    · have := ih (off + S)
      omega

lemma scheduleAux_mem (cache : PoolCache) (S : Nat) :
    ∀ (n off e : Nat), e ∈ scheduleAux cache S n off [] →
      (∃ i, i < n ∧ e = off + i * S) ∧ cache.containsKey e = false := by
  intro n
  induction n with
  | zero => intro off e h; simp [scheduleAux] at h
  | succ m ih =>
    intro off e h
    simp only [scheduleAux] at h
    cases hcc : cache.containsKey off <;>
      simp only [hcc, Bool.false_eq_true, if_false, if_true] at h
    · rw [scheduleAux_append cache S m (off + S) ([] ++ [off])] at h
      simp only [List.nil_append, List.cons_append, List.mem_cons] at h
      rcases h with rfl | h
      · exact ⟨⟨0, by omega, by simp⟩, hcc⟩
      · obtain ⟨⟨i, hi, rfl⟩, hc⟩ := ih (off + S) _ h
        exact ⟨⟨i + 1, by omega, by ring⟩, hc⟩
    · obtain ⟨⟨i, hi, rfl⟩, hc⟩ := ih (off + S) _ h
      exact ⟨⟨i + 1, by omega, by ring⟩, hc⟩

lemma sched_entry_props (S Q co e : Nat) (cache : PoolCache) (hS : 0 < S)
    (hco : co % S = 0) (he : e ∈ scheduleAux cache S Q (co + S) []) :
    e % S = 0 ∧ co < e ∧ cache.containsKey e = false := by
  obtain ⟨⟨i, hi, rfl⟩, hc⟩ := scheduleAux_mem cache S Q (co + S) _ he
  refine ⟨?_, ?_, hc⟩
  · obtain ⟨m, rfl⟩ := Nat.dvd_of_mod_eq_zero hco
    have he2 : S * m + S + i * S = (m + 1 + i) * S := by ring
    rw [he2]
    exact Nat.mul_mod_left _ _
  · calc co < co + S := by omega
      _ ≤ co + S + i * S := Nat.le_add_right _ _

lemma serveAndSchedule_served (cfg : EngineConfig) (s : EngineState)
    (fetches : List (Nat × Nat)) (req : FileReadRequest) (co : Nat) (out : StepOut)
    (d : Buffer) (h : serveAndSchedule cfg s fetches req co = some out)
    (hserved : out.reply = some (ReadReply.data d)) :
    req.isReadahead = false
    ∧ out.state.readahead
        = scheduleAux out.state.cache cfg.chunkSize cfg.readaheadQueueSize
            (co + cfg.chunkSize) s.readahead := by
  unfold serveAndSchedule at h
  split at h
  · cases h
    simp at hserved
  · rename_i hra
    split at h
    · exact absurd h (by simp)
    · rename_i chunkData cache2 hg
      split at h
      · exact absurd h (by simp)
      · cases h
        exact ⟨by simpa using hra, rfl⟩

/-- Claim C3 counterexample: chunk size 8, `readaheadQueueSize = 2`, four cache
blocks.  Two user reads of chunk 0 arrive back to back, so the read-ahead queue
is never consumed between them; the second read is a cache hit, which does not
clear the queue, and its top-up appends two more entries.  Immediately after
the engine serves that request the queue is `[8, 16, 8, 16]` — four entries
(with duplicates), exceeding `readaheadQueueSize = 2`. -/
theorem c3_counterexample :
    (runTrace ⟨8, 2⟩ (fun _ _ => some [1, 1, 1]) 2
        [⟨0, 1, true⟩, ⟨0, 1, true⟩] (initState 4)).map (fun p => p.2.readahead)
      = some [8, 16, 8, 16]
    ∧ 2 < ([8, 16, 8, 16] : List Nat).length :=
  ⟨by decide, by decide⟩

/-- Claim C3 as amended: after the engine serves a user request, the entries
appended to the read-ahead queue during that serve number at most
`readaheadQueueSize`, and each appended entry is chunk-aligned, strictly
greater than the request's `chunkStart`, and absent from the keyed cache at the
moment it is enqueued; the queue as a whole is the pre-serve queue (emptied
first when the request was a cache miss, retained on a hit) with those entries
appended, so on a hit its total length may exceed `readaheadQueueSize`. -/
theorem c3_amended_ok (cfg : EngineConfig) (fetch : Nat → Nat → Option Buffer)
    (s : EngineState) (req : FileReadRequest) (out : StepOut) (d : Buffer)
    (hS : 0 < cfg.chunkSize)
    (hout : step cfg fetch s req = some out)
    (hserved : out.reply = some (ReadReply.data d)) :
    out.state.readahead
        = (if s.cache.containsKey (req.offset / cfg.chunkSize * cfg.chunkSize) = true
            then s.readahead else [])
          ++ scheduleAux out.state.cache cfg.chunkSize cfg.readaheadQueueSize
              (req.offset / cfg.chunkSize * cfg.chunkSize + cfg.chunkSize) []
      ∧ (scheduleAux out.state.cache cfg.chunkSize cfg.readaheadQueueSize
            (req.offset / cfg.chunkSize * cfg.chunkSize + cfg.chunkSize) []).length
          ≤ cfg.readaheadQueueSize
      ∧ (∀ e ∈ scheduleAux out.state.cache cfg.chunkSize cfg.readaheadQueueSize
            (req.offset / cfg.chunkSize * cfg.chunkSize + cfg.chunkSize) [],
          e % cfg.chunkSize = 0
          ∧ req.offset / cfg.chunkSize * cfg.chunkSize < e
          ∧ out.state.cache.containsKey e = false) := by
  have hco : (req.offset / cfg.chunkSize * cfg.chunkSize) % cfg.chunkSize = 0 :=
    Nat.mul_mod_left _ _
  refine ⟨?_, scheduleAux_length _ _ _ _,
    fun e he => sched_entry_props cfg.chunkSize cfg.readaheadQueueSize _ e
      out.state.cache hS hco he⟩
  simp only [step] at hout
  split at hout
  · cases hout
    rcases hb : req.hasReply with _ | _ <;> simp [replyError, hb] at hserved
  · split at hout
    · rename_i hcon
      obtain ⟨hu, hr⟩ := serveAndSchedule_served _ _ _ _ _ _ _ hout hserved
      rw [hr, if_pos hcon]
      exact scheduleAux_append _ _ _ _ _
    · rename_i hcon
      split at hout
      · exact absurd hout (by simp)
      · rename_i _buf cache1 htake
        split at hout
        · rename_i bytes hfetch
          obtain ⟨hu, hr⟩ := serveAndSchedule_served _ _ _ _ _ _ _ hout hserved
          rw [hr, if_neg hcon]
          simp [hu]
        · cases hout
          rcases hb : req.hasReply with _ | _ <;> simp [replyError, hb] at hserved

/-- Claim C3 amended witness: a hit on cached chunk 0 with queue depth 1 and
chunk size 8 appends at most one entry. -/
theorem c3_amended_ok_witness :
    (scheduleAux (⟨poolEvictCap, [(0, [5, 6, 7])], []⟩ : PoolCache) 8 1
        (0 / 8 * 8 + 8) []).length ≤ 1 :=
  (c3_amended_ok ⟨8, 1⟩ (fun _ _ => none)
      ⟨⟨poolEvictCap, [(0, [5, 6, 7])], []⟩, []⟩ ⟨0, 1, true⟩
      ⟨⟨⟨poolEvictCap, [(0, [5, 6, 7])], []⟩, [8]⟩, some (ReadReply.data [5]), []⟩ [5]
      (by decide) (by decide) rfl).2.1

lemma increfN_eq (n : Nat) : ∀ h : FileReadHandle, h.openCount < u32Mod →
    increfN n h = ⟨(h.openCount + n) % u32Mod⟩ := by
  induction n with
  | zero =>
    intro h hlt
    cases h with
    | mk c => simp [increfN, Nat.mod_eq_of_lt hlt]
  | succ m ih =>
    intro h hlt
    cases h with
    | mk c =>
      have h2 : ((⟨c⟩ : FileReadHandle).incref).openCount < u32Mod :=
        Nat.mod_lt _ (by decide)
      have h3 := ih (⟨c⟩ : FileReadHandle).incref h2
      simp only [increfN] at h3 ⊢
      rw [h3]
      simp only [FileReadHandle.incref, Nat.mod_add_mod]
      rw [show c + 1 + m = c + (m + 1) from by omega]

lemma applyDecrefs_lt : ∀ (k m : Nat), k < m →
    applyDecrefs k ⟨m⟩ = some (some ⟨m - k⟩) := by
  intro k
  induction k with
  | zero => intro m hm; simp [applyDecrefs]
  | succ j ih =>
    intro m hm
    have hm0 : ¬ m = 0 := by omega
    have hm1 : ¬ m - 1 = 0 := by omega
    simp only [applyDecrefs, FileReadHandle.decref, hm0, hm1, if_false]
    rw [show m - (j + 1) = m - 1 - j from by omega]
    exact ih (m - 1) (by omega)

lemma applyDecrefs_exact : ∀ m : Nat, 1 ≤ m → applyDecrefs m ⟨m⟩ = some none := by
  intro m
  induction m with
  | zero => intro h; exact absurd h (by omega)
  | succ j ih =>
    intro _
    by_cases hj : j = 0
    · subst hj
      decide
    · have h0 : ¬ (j + 1 : Nat) = 0 := by omega
      simp only [applyDecrefs, FileReadHandle.decref, h0, if_false,
        Nat.add_sub_cancel, hj]
      exact ih (by omega)

/-- Claim C7: starting from the zero-count handle of `spawn`, after `n` calls
to `incref` every `decref` but the last returns `Some` of the surviving handle,
the `n`-th `decref` returns `None`, and once the handle is gone (channel
closed) a subsequent `do_read` fails with a submission error. -/
theorem c7_refcount_lifecycle (n : Nat) (h1 : 1 ≤ n) (h2 : n < u32Mod) :
    (∀ k, k < n → applyDecrefs k (increfN n spawnHandle) = some (some ⟨n - k⟩)) ∧
    applyDecrefs n (increfN n spawnHandle) = some none ∧
    (∀ rest, applyDecrefs n (increfN n spawnHandle) = some rest →
      requestRead rest 0 0 = SubmitResult.submissionFailed) := by
  have hh : increfN n spawnHandle = ⟨n⟩ := by
    rw [increfN_eq n spawnHandle (by decide)]
    have e1 : spawnHandle.openCount = 0 := rfl
    rw [e1, Nat.zero_add, Nat.mod_eq_of_lt h2]
  refine ⟨?_, ?_, ?_⟩
  · intro k hk
    rw [hh]
    exact applyDecrefs_lt k n hk
  · rw [hh]
    exact applyDecrefs_exact n h1
  · intro rest hr
    rw [hh, applyDecrefs_exact n h1] at hr
    cases hr
    rfl

/-- Claim C7 witness: three increfs then three decrefs; the third returns
`None`. -/
theorem c7_refcount_lifecycle_witness :
    applyDecrefs 3 (increfN 3 spawnHandle) = some none :=
  (c7_refcount_lifecycle 3 (by decide) (by decide)).2.1

/-- Negation of `is_readahead`: a request that carries a reply sink. -/
def isUserReq (r : FileReadRequest) : Bool := r.hasReply

/-- Claim C8: the loop polls the channel first, so a waiting user request
always wins over the read-ahead queue, a read-ahead request is synthesized only
when the channel is empty, and over any completed run the user requests served
are exactly a front segment of the submission (channel) order. -/
theorem c8_fifo_user_priority :
    (∀ (cs : Nat) (r : FileReadRequest) (rs : List FileReadRequest) (ra : List Nat),
        selectNext cs (r :: rs) ra = some (r, rs, ra)) ∧
    (∀ (cs off : Nat) (ra : List Nat),
        selectNext cs [] (off :: ra) = some (⟨off, cs, false⟩, [], ra)) ∧
    (∀ (cfg : EngineConfig) (fetch : Nat → Nat → Option Buffer) (fuel : Nat)
        (chan : List FileReadRequest) (s : EngineState) (tr : List FileReadRequest)
        (s' : EngineState),
        (∀ r ∈ chan, r.hasReply = true) →
        runTrace cfg fetch fuel chan s = some (tr, s') →
        List.filter isUserReq tr = chan.take (List.filter isUserReq tr).length) := by
  refine ⟨fun cs r rs ra => rfl, fun cs off ra => rfl, ?_⟩
  intro cfg fetch fuel
  induction fuel with
  | zero =>
    intro chan s tr s' hall h
    simp only [runTrace] at h
    cases h
    simp
  | succ m ih =>
    intro chan s tr s' hall h
    cases chan with
    | nil =>
      cases hra : s.readahead with
      | nil =>
        simp only [runTrace, selectNext, hra] at h
        cases h
        simp
      | cons off ra' =>
        rcases hstep : step cfg fetch ⟨s.cache, ra'⟩ ⟨off, cfg.chunkSize, false⟩
          with _ | out
        · simp [runTrace, selectNext, hra, hstep] at h
        · rcases hrun : runTrace cfg fetch m [] out.state with _ | p
          · simp [runTrace, selectNext, hra, hstep, hrun] at h
          · simp only [runTrace, selectNext, hra, hstep, hrun, Option.map_some'] at h
            cases h
            have htail := ih [] out.state p.1 p.2 (by simp) hrun
            simp only [List.take_nil] at htail
            simp [isUserReq, htail]
    | cons r rs =>
      rcases hstep : step cfg fetch ⟨s.cache, s.readahead⟩ r with _ | out
      · simp [runTrace, selectNext, hstep] at h
      · rcases hrun : runTrace cfg fetch m rs out.state with _ | p
        · simp [runTrace, selectNext, hstep, hrun] at h
        · simp only [runTrace, selectNext, hstep, hrun, Option.map_some'] at h
          cases h
          have hr : r.hasReply = true := hall r (by simp)
          have hrest : ∀ x ∈ rs, x.hasReply = true := fun x hx => hall x (by simp [hx])
          have htail := ih rs out.state p.1 p.2 hrest hrun
          simp only [List.filter_cons, isUserReq, hr, if_true, List.length_cons,
            List.take_succ_cons]
          exact congrArg (List.cons r) htail

/-- Claim C8 witness: a one-request run serves the single user request, a front
segment of the channel order. -/
theorem c8_fifo_user_priority_witness :
    List.filter isUserReq [(⟨0, 1, true⟩ : FileReadRequest)]
      = [(⟨0, 1, true⟩ : FileReadRequest)].take
          (List.filter isUserReq [(⟨0, 1, true⟩ : FileReadRequest)]).length :=
  c8_fifo_user_priority.2.2 ⟨8, 0⟩ (fun _ _ => some [2, 2]) 1 [⟨0, 1, true⟩]
    (initState 1) [⟨0, 1, true⟩] ⟨⟨poolEvictCap, [(0, [2, 2])], []⟩, []⟩
    (by decide) (by decide)

end Gdrivefs
